import Mathlib

/-!
# Verification of the navigrator core against its specification

Shallow embedding of the navigrator repository (axlotl-lab/navigrator):
* `HostsManager` (hosts-file registry, `src/lib/hosts.ts`),
* `CertificateManager` (OpenSSL-based leaf issuance and the node-forge
  based verification, from the certificate files of the repository),
* `ProxyService` (per-domain HTTPS proxy servers, `src/lib/proxy-service.ts`).

The hosts file is represented by its list of lines: the source splits the
file content on newlines on entry to every operation and joins on exit, so
the line list is the faithful unit of state.  JavaScript string primitives
(trim, startsWith, substring(1), split on a whitespace run) are embedded
as executable functions over the character list of a string, so that every
definition evaluates inside the kernel.  Filesystem and external-process
outcomes that the source only observes through exceptions are passed in as
explicit oracle values.
-/

namespace Navigrator

instance {ε α : Type} [DecidableEq ε] [DecidableEq α] : DecidableEq (Except ε α) := by
  intro a b
  cases a <;> cases b
  case error.error x y =>
    exact if h : x = y then .isTrue (by rw [h]) else .isFalse (by intro c; cases c; exact h rfl)
  case error.ok x y => exact .isFalse (by intro c; cases c)
  case ok.error x y => exact .isFalse (by intro c; cases c)
  case ok.ok x y =>
    exact if h : x = y then .isTrue (by rw [h]) else .isFalse (by intro c; cases c; exact h rfl)

/-! ## JavaScript string primitives -/

/-- Leading and trailing whitespace removal on a character list
(JavaScript `String.prototype.trim`). -/
def trimChars (l : List Char) : List Char :=
  (l.dropWhile Char.isWhitespace).rdropWhile Char.isWhitespace

/-- JavaScript `s.trim()`. -/
def jsTrim (s : String) : String := ⟨trimChars s.data⟩

/-- JavaScript `s.startsWith(p)`. -/
def strStartsWith (s p : String) : Bool := p.data.isPrefixOf s.data

/-- JavaScript `s.substring(1)`. -/
def substringFrom1 (s : String) : String := ⟨s.data.drop 1⟩

/-- Accumulating splitter: `acc` holds the reversed characters of the word
being read.  Produces the maximal non-whitespace runs of the input. -/
def splitWsAux : List Char → List Char → List String
  | acc, [] => if acc = [] then [] else [⟨acc.reverse⟩]
  | acc, c :: cs =>
    if c.isWhitespace then
      if acc = [] then splitWsAux [] cs else ⟨acc.reverse⟩ :: splitWsAux [] cs
    else splitWsAux (c :: acc) cs

/-- JavaScript `s.split(/\s+/)` as the source applies it: every call site
splits an already-trimmed string, and on trimmed input the JavaScript
split equals the list of maximal non-whitespace runs. -/
def splitWs (s : String) : List String := splitWsAux [] s.data

/-! ## HostsManager (`src/lib/hosts.ts`) -/

/-- Constant `APP_IDENTIFIER` from `hosts.ts`: the sentinel comment marking an
active managed entry. -/
def APP_IDENTIFIER : String := "# @axlotl-lab/navigrator"

/-- Constant `DISABLED_IDENTIFIER` from `hosts.ts`: the sentinel comment marking a
disabled managed entry. -/
def DISABLED_IDENTIFIER : String := "# @axlotl-lab/navigrator-disabled"

/-- Record `HostEntry` from `hosts.ts`. -/
structure HostEntry where
  ip : String
  domain : String
  isCreatedByUs : Bool
  isDisabled : Bool
  lineNumber : Nat
  deriving Repr, DecidableEq

/-- Trim of the line directly below the current one equals `s`: the
`i < lines.length - 1 && lines[i+1].trim() === s` pattern of the source. -/
def nextTrimEq (rest : List String) (s : String) : Bool :=
  match rest with
  | next :: _ => jsTrim next = s
  | [] => false

/-- Method `HostsManager.parseHostsFile`, recursion over the remaining lines with
`i` the zero-based index of the current line.  Mirrors the source loop: a
commented line directly above the disabled sentinel is un-commented and
treated as a disabled entry; any other comment (including a sentinel line
reached directly) is skipped; a data line with at least two fields yields
an entry whose `isCreatedByUs` records whether the next line is one of the
two sentinels, in which case the sentinel line is skipped. -/
def parseHostsFile : List String → Nat → List HostEntry
  | [], _ => []
  | l :: rest, i =>
    let t := jsTrim l
    if strStartsWith t "#" && ! nextTrimEq rest DISABLED_IDENTIFIER then
      parseHostsFile rest (i + 1)
    else
      let line := if strStartsWith t "#" then jsTrim (substringFrom1 t) else t
      let isDisabled := strStartsWith t "#"
      if line = "" then parseHostsFile rest (i + 1)
      else
        let isCreatedByUs :=
          nextTrimEq rest APP_IDENTIFIER || nextTrimEq rest DISABLED_IDENTIFIER
        match splitWs line with
        | ip :: domain :: _ =>
          ⟨ip, domain, isCreatedByUs, isDisabled, i + 1⟩ ::
            (if isCreatedByUs then
              match rest with
              | _ :: r2 => parseHostsFile r2 (i + 2)
              | [] => []
            else parseHostsFile rest (i + 1))
        | _ => parseHostsFile rest (i + 1)
  termination_by structural lines _ => lines

/-- Method `readHosts` modulo I/O: parse the file content. -/
def readHosts (lines : List String) : List HostEntry :=
  parseHostsFile lines 0

/-- Method `readLocalHosts`: entries whose ip is a loopback address. -/
def readLocalHosts (lines : List String) : List HostEntry :=
  (readHosts lines).filter (fun h => h.ip = "127.0.0.1" || h.ip = "::1")

/-- Outcome of the scan inside `markHostAsOurs`: the matching data line is
already followed by a sentinel, or the active sentinel is spliced in after
it (producing the new line list), or no matching data line exists. -/
inductive MarkOutcome where
  | alreadyMarked
  | spliced (newLines : List String)
  | notFound
  deriving Repr, DecidableEq

/-- Prepend a skipped line to a scan outcome. -/
def consMark (l : String) : MarkOutcome → MarkOutcome
  | .spliced ls => .spliced (l :: ls)
  | o => o

/-- The scanning loop of `HostsManager.markHostAsOurs`: skip empty and
commented lines; at the first uncommented line whose first two fields are
`ip` and `domain`, return `alreadyMarked` if the next line is already a
sentinel, else splice `APP_IDENTIFIER` in directly after it. -/
def markScan (domain ip : String) : List String → MarkOutcome
  | [] => .notFound
  | l :: rest =>
    let t := jsTrim l
    if t = "" || strStartsWith t "#" then consMark l (markScan domain ip rest)
    else
      match splitWs t with
      | p0 :: p1 :: _ =>
        if p0 = ip && p1 = domain then
          if nextTrimEq rest APP_IDENTIFIER || nextTrimEq rest DISABLED_IDENTIFIER then
            .alreadyMarked
          else .spliced (l :: APP_IDENTIFIER :: rest)
        else consMark l (markScan domain ip rest)
      | _ => consMark l (markScan domain ip rest)

/-- Method `HostsManager.markHostAsOurs` (also `adoptHost`): `writeOk` is the
outcome of the `writeHostsFile` call performed when the splice modified
the file; a failed write surfaces as the thrown error (`.error`). -/
def markHostAsOurs (domain ip : String) (lines : List String) (writeOk : Bool) :
    Except Unit (Bool × List String) :=
  match markScan domain ip lines with
  | .alreadyMarked => .ok (true, lines)
  | .spliced ls => if writeOk then .ok (true, ls) else .error ()
  | .notFound => .ok (false, lines)

/-- The loop of `importAllLocalHosts`: adopt each entry in turn, threading
the file content; `oracle` supplies the outcome of the write performed by
each successive adoption (an exhausted oracle means the write succeeds).
A thrown adoption error aborts the whole import, as in the source, where
the surrounding `try` rethrows.  The returned number counts the adoptions
that reported success. -/
def importLoop : List HostEntry → List String → List Bool → Except Unit (Nat × List String)
  | [], ls, _ => .ok (0, ls)
  | e :: es, ls, o =>
    match markHostAsOurs e.domain e.ip ls (o.headD true) with
    | .error _ => .error ()
    | .ok (b, ls1) =>
      match importLoop es ls1 o.tail with
      | .error _ => .error ()
      | .ok (n, ls2) => .ok ((if b then n + 1 else n), ls2)

/-- Method `HostsManager.importAllLocalHosts`: read the loopback entries, keep
the ones not created by us, adopt each of them, and return the success
flag (`adoptedCount > 0`), the count and the final file content. -/
def importAllLocalHosts (lines : List String) (oracle : List Bool) :
    Except Unit (Bool × Nat × List String) :=
  let toAdopt := (readLocalHosts lines).filter (fun h => ! h.isCreatedByUs)
  match importLoop toAdopt lines oracle with
  | .error _ => .error ()
  | .ok (n, ls) => .ok (decide (n > 0), n, ls)

/-- The scanning loop of `HostsManager.toggleHostState`: `some newLines`
when the loop modified the file, `none` when it finished (or broke) with
no modification.  Mirrors the source: empty lines and sentinel lines are
skipped; a line (commented or not) whose fields match `ip`/`domain` is
acted on only when the line below it is one of the two sentinels, and the
loop breaks there whether or not anything changed. -/
def toggleScan (domain : String) (disable : Bool) (ip : String) :
    List String → Option (List String)
  | [] => none
  | l :: rest =>
    let t := jsTrim l
    if t = "" then (toggleScan domain disable ip rest).map (l :: ·)
    else if t = APP_IDENTIFIER || t = DISABLED_IDENTIFIER then
      (toggleScan domain disable ip rest).map (l :: ·)
    else
      let isCommented := strStartsWith t "#"
      let actual := if isCommented then jsTrim (substringFrom1 t) else t
      match splitWs actual with
      | p0 :: p1 :: _ =>
        if p0 = ip && p1 = domain then
          match rest with
          | next :: r2 =>
            if jsTrim next = APP_IDENTIFIER || jsTrim next = DISABLED_IDENTIFIER then
              if (disable && isCommented) || (! disable && ! isCommented) then
                -- state already as requested: refresh the sentinel if needed
                if (disable && ! (jsTrim next = DISABLED_IDENTIFIER)) ||
                    (! disable && ! (jsTrim next = APP_IDENTIFIER)) then
                  some (l :: (if disable then DISABLED_IDENTIFIER else APP_IDENTIFIER) :: r2)
                else none
              else
                some ((if disable then "# " ++ actual else actual) ::
                  (if disable then DISABLED_IDENTIFIER else APP_IDENTIFIER) :: r2)
            else (toggleScan domain disable ip rest).map (l :: ·)
          | [] => (toggleScan domain disable ip rest).map (l :: ·)
        else (toggleScan domain disable ip rest).map (l :: ·)
      | _ => (toggleScan domain disable ip rest).map (l :: ·)

/-- Method `HostsManager.toggleHostState`: write the modified content when the
scan changed something (`writeOk` the outcome of that write), otherwise
report `false` with the file untouched. -/
def toggleHostState (domain : String) (disable : Bool) (ip : String)
    (lines : List String) (writeOk : Bool) : Except Unit (Bool × List String) :=
  match toggleScan domain disable ip lines with
  | some ls => if writeOk then .ok (true, ls) else .error ()
  | none => .ok (false, lines)

/-- Method `HostsManager.addHost(domain, ip)`: look the pair up in the parsed
file; managed and enabled is a no-op success, managed but disabled is
re-enabled through `toggleHostState(domain, false)` — note the source
passes no ip there, so the default `127.0.0.1` is used — an unmanaged
entry is adopted in place, and an absent pair appends the two-line block
(the appended string is newline-led, so in line terms the block is two new
lines).  `writeOk` is the outcome of whichever write the call performs. -/
def addHost (domain ip : String) (lines : List String) (writeOk : Bool) :
    Except Unit (Bool × List String) :=
  let hosts := readHosts lines
  match hosts.find? (fun h => h.domain = domain && h.ip = ip) with
  | some h =>
    if h.isCreatedByUs then
      if h.isDisabled then toggleHostState domain false "127.0.0.1" lines writeOk
      else .ok (true, lines)
    else markHostAsOurs domain ip lines writeOk
  | none =>
    if writeOk then .ok (true, lines ++ [ip ++ " " ++ domain, APP_IDENTIFIER])
    else .error ()

/-! ## CertificateManager: OpenSSL-based issuance (`createCertificate`)

The method shells out to OpenSSL in sequence: write the request config
file, generate the leaf key, create the CSR, sign it with the root CA,
then unlink the CSR and the config file and parse the produced
certificate.  Any awaited step may fail — `execAsync`, `writeFile`, and
also each `fs.unlink` may reject — and the surrounding catch only logs
and rethrows, so the unlink calls run only after a successful signing
and a rejecting unlink leaves its file behind.  The embedding tracks the
set of files in the certificate directory and takes the per-step
outcomes as an oracle. -/

/-- Outcomes of the awaited steps of `createCertificate`: writing the
OpenSSL config file, `openssl genrsa`, `openssl req -new` (CSR creation),
`openssl x509 -req` (CA signing), the two `fs.unlink` cleanup calls (each
may reject, leaving its file in place), and the final certificate
parse. -/
structure IssueOracle where
  writeCnfOk : Bool
  genrsaOk : Bool
  csrOk : Bool
  signOk : Bool
  unlinkCsrOk : Bool
  unlinkCnfOk : Bool
  parseOk : Bool
  deriving Repr, DecidableEq

/-- Method `CertificateManager.createCertificate(domain)` over the file set of
the certificate directory.  `.error` is the rethrown failure; the second
component is the directory content after the call.  A rejecting unlink
leaves its file on disk and rethrows like every other failed step. -/
def createCertificate (domain : String) (o : IssueOracle) (fs0 : List String) :
    Except Unit Unit × List String :=
  let cnf := domain ++ ".cnf"
  let key := domain ++ ".key"
  let csr := domain ++ ".csr"
  let crt := domain ++ ".crt"
  if ! o.writeCnfOk then (.error (), fs0)
  else
    let fs1 := fs0 ++ [cnf]
    if ! o.genrsaOk then (.error (), fs1)
    else
      let fs2 := fs1 ++ [key]
      if ! o.csrOk then (.error (), fs2)
      else
        let fs3 := fs2 ++ [csr]
        if ! o.signOk then (.error (), fs3)
        else
          let fs4 := fs3 ++ [crt]
          if ! o.unlinkCsrOk then (.error (), fs4)
          else
            let fs5 := fs4.filter (· ≠ csr)
            if ! o.unlinkCnfOk then (.error (), fs5)
            else
              let fs6 := fs5.filter (· ≠ cnf)
              if o.parseOk then (.ok (), fs6) else (.error (), fs6)

/-! ## CertificateManager: node-forge verification (`verifyCertificate`)

`src/lib/certificates.ts` lines 115-163: load the persisted pair, parse
the certificate with node-forge, and report `isValid` as the conjunction
of the date-window check and the domain check (SAN list or subject CN).
The parsed certificate is embedded structurally; dates are integer
timestamps, so the JavaScript `Date` comparisons are integer
comparisons. -/

/-- One name of a `subjectAltName` extension; `type = 2` is a DNS name. -/
structure AltName where
  type : Nat
  value : String
  deriving Repr, DecidableEq

/-- One certificate extension as node-forge exposes it. -/
structure CertExtension where
  name : String
  altNames : List AltName
  deriving Repr, DecidableEq

/-- The fields of a parsed node-forge certificate that
`verifyCertificate` reads. -/
structure ForgeCert where
  notBefore : Int
  notAfter : Int
  subjectCN : Option String
  issuerCN : Option String
  extensions : List CertExtension
  deriving Repr, DecidableEq

/-- Method `CertificateManager.getSubjectAltNames`: the DNS (type 2) names of
every `subjectAltName` extension, in order. -/
def getSubjectAltNames (cert : ForgeCert) : List String :=
  cert.extensions.foldl
    (fun acc ext =>
      if ext.name = "subjectAltName" then
        acc ++ (ext.altNames.filter (fun n => n.type = 2)).map (fun n => n.value)
      else acc)
    []

/-- Record `CertificateInfo` from `certificates.ts` (the file paths are derived
from the domain and carry no extra information here). -/
structure CertificateInfo where
  domain : String
  validFrom : Int
  validTo : Int
  issuer : String
  isValid : Bool
  deriving Repr, DecidableEq

/-- Method `CertificateManager.verifyCertificate(domain)` at time `now`:
`filesExist` is whether both persisted files are accessible, `parsed` the
result of `forge.pki.certificateFromPem` (`none` when it throws; the
catch returns null).  `isValid` is the date-window check conjoined with
the SAN/CN domain check. -/
def verifyCertificate (domain : String) (now : Int) (filesExist : Bool)
    (parsed : Option ForgeCert) : Option CertificateInfo :=
  if ! filesExist then none
  else
    match parsed with
    | none => none
    | some cert =>
      let isValid := decide (cert.notBefore ≤ now) && decide (now ≤ cert.notAfter)
      let altNames := getSubjectAltNames cert
      let domainIncluded := altNames.contains domain || cert.subjectCN == some domain
      let issuerCN := cert.issuerCN.getD "Unknown"
      some ⟨domain, cert.notBefore, cert.notAfter, issuerCN, isValid && domainIncluded⟩

/-- A leaf certificate as `createCertificateWithForge` builds it for a
domain: CN = domain and a single DNS SAN = domain. -/
def forgeLeafFor (domain : String) (notBefore notAfter : Int) : ForgeCert :=
  ⟨notBefore, notAfter, some domain, some "Axlotl Lab Navigrator",
    [⟨"subjectAltName", [⟨2, domain⟩]⟩]⟩

/-! ## ProxyService (`src/lib/proxy-service.ts`)

The service keeps a JavaScript `Map` of route configurations keyed by
domain and a second `Map` of the HTTPS server created for each started
domain.  `startProxy` builds a dedicated `https.createServer` for the
domain with the certificate of that domain and calls `listen(config.port)` on
it.  `listen` returns at once: a bind failure such as `EADDRINUSE` is
delivered later to the `error` listener, which only logs it, so the
synchronous remainder of `startProxy` (marking the route running,
returning `true`) is unaffected by the availability of the port.  The
embedding keeps the two maps as association lists with `Map.set`
semantics and records for each created server the port it was asked to
bind and the PEM contents it serves. -/

/-- JavaScript `Map.prototype.get` on an association list. -/
def mapFind {α : Type} (m : List (String × α)) (k : String) : Option α :=
  (m.find? (fun p => p.1 = k)).map (fun p => p.2)

/-- JavaScript `Map.prototype.set`: replace the entry in place when the
key exists (map keys are unique), else append at the end. -/
def mapSet {α : Type} : List (String × α) → String → α → List (String × α)
  | [], k, v => [(k, v)]
  | p :: ps, k, v => if p.1 = k then (k, v) :: ps else p :: mapSet ps k v

/-- JavaScript `Map.prototype.delete` (the removal effect). -/
def mapDelete {α : Type} (m : List (String × α)) (k : String) :
    List (String × α) :=
  m.filter (fun p => ! (p.1 = k))

/-- Record `ProxyConfig` from `proxy-service.ts`. -/
structure ProxyConfig where
  domain : String
  target : String
  isRunning : Bool
  certPath : Option String
  keyPath : Option String
  port : Option Nat
  deriving Repr, DecidableEq

/-- The observable footprint of one `https.Server` created by
`startProxy`: the port passed to `listen` and the PEM pair it serves. -/
structure ServerHandle where
  port : Option Nat
  certPem : String
  keyPem : String
  deriving Repr, DecidableEq

/-- The mutable state of a `ProxyService` instance. -/
structure ProxyState where
  proxies : List (String × ProxyConfig)
  servers : List (String × ServerHandle)
  deriving Repr, DecidableEq

/-- The environment `startProxy` reads: `fsRead` the content of a path
(`none` when `readFileSync` throws) and `urlParseOk` whether
`new URL(target)` succeeds. -/
structure ProxyEnv where
  fsRead : String → Option String
  urlParseOk : String → Bool

/-- Method `ProxyService.stopProxy`: nothing to do when no server exists for the
domain; otherwise close and drop the server and clear the `isRunning` flag of the route. -/
def stopProxy (s : ProxyState) (domain : String) : Bool × ProxyState :=
  match mapFind s.servers domain with
  | none => (false, s)
  | some _ =>
    let servers := mapDelete s.servers domain
    let proxies :=
      match mapFind s.proxies domain with
      | some cfg => mapSet s.proxies domain { cfg with isRunning := false }
      | none => s.proxies
    (true, ⟨proxies, servers⟩)

/-- Method `ProxyService.startProxy(domain, certPath, keyPath)`: fail fast when
the route is unknown; stop any existing server for the domain; parse the
target URL and read the PEM pair (a throw from either is caught and
reported as `false`); then create the dedicated HTTPS server, ask it to
bind `config.port` — the bind outcome is asynchronous and only logged, so
it does not influence the result — mark the route running and report
`true`. -/
def startProxy (s : ProxyState) (domain certPath keyPath : String)
    (env : ProxyEnv) : Bool × ProxyState :=
  match mapFind s.proxies domain with
  | none => (false, s)
  | some _ =>
    let s1 := (stopProxy s domain).2
    match mapFind s1.proxies domain with
    | none => (false, s1)
    | some cfg =>
      if ! env.urlParseOk cfg.target then (false, s1)
      else
        match env.fsRead keyPath, env.fsRead certPath with
        | some keyPem, some certPem =>
          let server : ServerHandle := ⟨cfg.port, certPem, keyPem⟩
          let cfg2 := { cfg with
            certPath := some certPath, keyPath := some keyPath, isRunning := true }
          (true, ⟨mapSet s1.proxies domain cfg2, mapSet s1.servers domain server⟩)
        | _, _ => (false, s1)

/-- Method `ProxyService.loadProxies` run at construction: when the persisted
file is missing it is created with an empty array and the map stays
empty; when reading or JSON-parsing fails (`parsed = none`) the catch
clears the map; otherwise every loaded record is inserted with
`isRunning` forced to `false`. -/
def loadProxies (fileExists : Bool) (parsed : Option (List ProxyConfig)) :
    List (String × ProxyConfig) :=
  if ! fileExists then []
  else
    match parsed with
    | none => []
    | some configs =>
      configs.foldl (fun m c => mapSet m c.domain { c with isRunning := false }) []

/-- Method `ProxyService.getProxies`: the values of the proxies map. -/
def getProxies (m : List (String × ProxyConfig)) : List ProxyConfig :=
  m.map (fun p => p.2)

/-! ### Claims C1 and C2: startProxy on a shared port

A concrete two-route scenario: both routes are registered on port 443 and
the environment reads every PEM path successfully. -/

/-- Route for the first demo domain, registered on port 443. -/
def cfgD1 : ProxyConfig :=
  ⟨"d1.local", "http://localhost:3001", false, none, none, some 443⟩

/-- Route for the second demo domain, registered on the same port 443. -/
def cfgD2 : ProxyConfig :=
  ⟨"d2.local", "http://localhost:3002", false, none, none, some 443⟩

/-- Environment in which every file read succeeds (returning a marker PEM
string) and every target URL parses. -/
def demoEnv : ProxyEnv := ⟨fun p => some ("PEM:" ++ p), fun _ => true⟩

/-- Initial state: both routes registered, nothing started. -/
def demoState0 : ProxyState := ⟨[("d1.local", cfgD1), ("d2.local", cfgD2)], []⟩

/-- State after `startProxy("d1.local", ...)`. -/
def afterStart1 : ProxyState :=
  (startProxy demoState0 "d1.local" "d1.crt" "d1.key" demoEnv).2

/-- Result of the subsequent `startProxy("d2.local", ...)` on the same
configured port. -/
def afterStart2 : Bool × ProxyState :=
  startProxy afterStart1 "d2.local" "d2.crt" "d2.key" demoEnv

/-- The acceptance condition of the `markHostAsOurs` scan: an uncommented
non-empty data line whose first two fields are `ip` and `domain`. -/
def isDataMatch (domain ip : String) (l : String) : Bool :=
  let t := jsTrim l
  if t = "" || strStartsWith t "#" then false
  else
    match splitWs t with
    | p0 :: p1 :: _ => p0 = ip && p1 = domain
    | _ => false

/-- The pair test of the `toggleHostState` scan: the (un-commented when
commented) trimmed line has `ip` and `domain` as its first two fields. -/
def matchesPair (domain ip : String) (l : String) : Bool :=
  let t := jsTrim l
  let actual := if strStartsWith t "#" then jsTrim (substringFrom1 t) else t
  match splitWs actual with
  | p0 :: p1 :: _ => p0 = ip && p1 = domain
  | _ => false

/-- A line the `toggleHostState` scan passes over unconditionally: empty,
a sentinel, or not matching the pair. -/
def togglePass (domain ip : String) (l : String) : Bool :=
  jsTrim l = "" || jsTrim l = APP_IDENTIFIER || jsTrim l = DISABLED_IDENTIFIER ||
    ! matchesPair domain ip l

/-- The `toggleHostState` scan passes over every line of `pre` when the
file continues with `rest0`: each line either satisfies `togglePass`
unconditionally, or — covering a foreign entry, a data line that matches
the pair but has no sentinel — the line directly below it (the next line
of `pre`, or the first line of `rest0` for the last one) is not a
sentinel, so the scan moves on without acting or breaking. -/
def passUntil (domain ip : String) : List String → List String → Bool
  | [], _ => true
  | l :: pre2, rest0 =>
    (togglePass domain ip l ||
      (! nextTrimEq (pre2 ++ rest0) APP_IDENTIFIER &&
        ! nextTrimEq (pre2 ++ rest0) DISABLED_IDENTIFIER)) &&
    passUntil domain ip pre2 rest0

/-! ## Helper lemmas about the map embedding -/

theorem mapFind_cons {α : Type} (p : String × α) (l : List (String × α))
    (k : String) :
    mapFind (p :: l) k = if p.1 = k then some p.2 else mapFind l k := by
  by_cases h : p.1 = k
  · simp [mapFind, List.find?_cons_of_pos, h]
  · simp [mapFind, List.find?_cons_of_neg, h]

theorem mapFind_set_self {α : Type} (m : List (String × α)) (k : String) (v : α) :
    mapFind (mapSet m k v) k = some v := by
  induction m with
  | nil => simp [mapSet, mapFind_cons]
  | cons p ps ih =>
    by_cases h : p.1 = k
    · simp [mapSet, h, mapFind_cons]
    · simp [mapSet, h, mapFind_cons, ih]

theorem mapFind_set_ne {α : Type} (m : List (String × α)) (k k' : String) (v : α)
    (h : k' ≠ k) : mapFind (mapSet m k v) k' = mapFind m k' := by
  induction m with
  | nil => simp [mapSet, mapFind_cons, mapFind, Ne.symm h]
  | cons p ps ih =>
    by_cases hp : p.1 = k
    · simp [mapSet, hp, mapFind_cons, Ne.symm h]
    · simp [mapSet, hp, mapFind_cons, ih]

theorem mem_mapSet {α : Type} {m : List (String × α)} {k : String} {v : α}
    {p : String × α} (hp : p ∈ mapSet m k v) : p = (k, v) ∨ p ∈ m := by
  induction m with
  | nil => simpa [mapSet] using hp
  | cons q qs ih =>
    by_cases h : q.1 = k
    · simp [mapSet, h] at hp
      rcases hp with hp | hp
      · exact Or.inl hp
      · exact Or.inr (List.mem_cons_of_mem _ hp)
    · simp [mapSet, h] at hp
      rcases hp with hp | hp
      · exact Or.inr (hp ▸ List.mem_cons_self _ _)
      · rcases ih hp with h1 | h1
        · exact Or.inl h1
        · exact Or.inr (List.mem_cons_of_mem _ h1)

/-! ## Claim theorems -/

/-- C8.  For every persisted route record, loading the route table at
construction time forces the `isRunning` field of that route to `false`
regardless of the value stored on disk: every configuration visible
through `getProxies` after a load has `isRunning = false`. -/
theorem c8_loaded_routes_not_running (fileExists : Bool)
    (parsed : Option (List ProxyConfig)) (c : ProxyConfig)
    (hc : c ∈ getProxies (loadProxies fileExists parsed)) :
    c.isRunning = false := by
  have key : ∀ (configs : List ProxyConfig) (m : List (String × ProxyConfig)),
      (∀ p ∈ m, p.2.isRunning = false) →
      ∀ p ∈ configs.foldl
        (fun m c => mapSet m c.domain { c with isRunning := false }) m,
        p.2.isRunning = false := by
    intro configs
    induction configs with
    | nil => intro m hm p hp; exact hm p hp
    | cons c0 cs ih =>
      intro m hm p hp
      refine ih _ ?_ p hp
      intro q hq
      rcases mem_mapSet hq with h1 | h1
      · simp [h1]
      · exact hm q h1
  cases fileExists with
  | false => simp [loadProxies, getProxies] at hc
  | true =>
    cases parsed with
    | none => simp [loadProxies, getProxies] at hc
    | some configs =>
      simp only [loadProxies, getProxies, List.mem_map] at hc
      obtain ⟨p, hp, hpc⟩ := hc
      have := key configs [] (by simp) p (by simpa using hp)
      simpa [hpc] using this

/-- C8 witness: a stored record flagged as running is loaded with the
flag cleared. -/
theorem c8_witness :
    (⟨"a.local", "http://localhost:3000", false, none, none, some 443⟩ : ProxyConfig) ∈
        getProxies (loadProxies true
          (some [⟨"a.local", "http://localhost:3000", true, none, none, some 443⟩])) ∧
    (⟨"a.local", "http://localhost:3000", false, none, none, some 443⟩ :
        ProxyConfig).isRunning = false :=
  ⟨by decide, c8_loaded_routes_not_running true
    (some [⟨"a.local", "http://localhost:3000", true, none, none, some 443⟩]) _
    (by decide)⟩

/-- C10.  A missing persisted route file is created empty, and an
unreadable or invalid-JSON file has its load error swallowed with the
in-memory table cleared: in both cases the constructor succeeds (the
embedding is a total function) and `getProxies` returns the empty
list. -/
theorem c10_load_error_swallowed (fileExists : Bool)
    (parsed : Option (List ProxyConfig))
    (h : fileExists = false ∨ parsed = none) :
    loadProxies fileExists parsed = [] ∧
      getProxies (loadProxies fileExists parsed) = [] := by
  rcases h with h | h
  · subst h; simp [loadProxies, getProxies]
  · subst h; cases fileExists <;> simp [loadProxies, getProxies]

/-- C10 witness: an unreadable or unparsable file yields the empty route
list. -/
theorem c10_witness :
    (true = false ∨ (none : Option (List ProxyConfig)) = none) ∧
      getProxies (loadProxies true none) = [] :=
  ⟨Or.inr rfl, (c10_load_error_swallowed true none (Or.inr rfl)).2⟩

/-- C5.  For a domain with a persisted leaf pair whose certificate
parses, `verifyCertificate` reports `isValid = true` exactly when the
current time lies within the validity window and the domain is covered by
the SAN list or the subject CN; in particular a certificate that does not
cover the domain reports `isValid = false` however unexpired it is. -/
theorem c5_verify_isValid_iff (domain : String) (now : Int) (cert : ForgeCert)
    (info : CertificateInfo)
    (h : verifyCertificate domain now true (some cert) = some info) :
    (info.isValid = true ↔
      (cert.notBefore ≤ now ∧ now ≤ cert.notAfter ∧
        (domain ∈ getSubjectAltNames cert ∨ cert.subjectCN = some domain))) ∧
    (¬ (domain ∈ getSubjectAltNames cert ∨ cert.subjectCN = some domain) →
      info.isValid = false) := by
  simp only [verifyCertificate, Bool.not_true, Bool.false_eq_true, if_false,
    Option.some.injEq] at h
  subst h
  have hiff : ((decide (cert.notBefore ≤ now) && decide (now ≤ cert.notAfter)) &&
        ((getSubjectAltNames cert).contains domain ||
          cert.subjectCN == some domain)) = true ↔
      (cert.notBefore ≤ now ∧ now ≤ cert.notAfter ∧
        (domain ∈ getSubjectAltNames cert ∨ cert.subjectCN = some domain)) := by
    simp [and_assoc]
  refine ⟨hiff, ?_⟩
  intro hnc
  cases hv : ((decide (cert.notBefore ≤ now) && decide (now ≤ cert.notAfter)) &&
      ((getSubjectAltNames cert).contains domain || cert.subjectCN == some domain)) with
  | false => rfl
  | true => exact absurd (hiff.mp hv).2.2 hnc

/-- C5 witness: an unexpired certificate issued for `a.local` reports
invalid when verified against `b.local`. -/
theorem c5_witness :
    verifyCertificate "b.local" 50 true (some (forgeLeafFor "a.local" 0 100)) =
        some ⟨"b.local", 0, 100, "Axlotl Lab Navigrator", false⟩ ∧
      (⟨"b.local", 0, 100, "Axlotl Lab Navigrator", false⟩ :
        CertificateInfo).isValid = false :=
  ⟨by decide,
    (c5_verify_isValid_iff "b.local" 50 (forgeLeafFor "a.local" 0 100) _
      (by decide)).2 (by decide)⟩

/-- C3 counterexample.  The claim states the temporary CSR and OpenSSL
config files are removed on every failure path; but when the key
generation step fails after the config file was written, the call
rethrows with the config file still present in the certificate
directory — and likewise, when the unlink of the config file itself
rejects during cleanup, the call rethrows with that file still on
disk. -/
theorem c3_counterexample :
    (createCertificate "a.local" ⟨true, false, true, true, true, true, true⟩ []).1 =
        .error () ∧
      "a.local.cnf" ∈
        (createCertificate "a.local" ⟨true, false, true, true, true, true, true⟩ []).2 ∧
      (createCertificate "a.local" ⟨true, true, true, true, true, false, true⟩ []).1 =
        .error () ∧
      "a.local.cnf" ∈
        (createCertificate "a.local" ⟨true, true, true, true, true, false, true⟩ []).2 := by
  decide

/-- C3 amended.  Cleanup of the temporary request artifacts is attempted
only after the signing step has completed: whenever the config write,
key generation, CSR creation, signing, and both unlink calls succeed,
neither the CSR file nor the config file remains afterwards (whatever
the outcome of the final parse); a failure before or during the cleanup
rethrows with the remaining artifacts still on disk. -/
theorem c3_cleanup_on_success (domain : String) (o : IssueOracle)
    (fs0 : List String) (h1 : o.writeCnfOk = true) (h2 : o.genrsaOk = true)
    (h3 : o.csrOk = true) (h4 : o.signOk = true) (h5 : o.unlinkCsrOk = true)
    (h6 : o.unlinkCnfOk = true) :
    (domain ++ ".csr") ∉ (createCertificate domain o fs0).2 ∧
      (domain ++ ".cnf") ∉ (createCertificate domain o fs0).2 := by
  unfold createCertificate
  simp only [h1, h2, h3, h4, h5, h6, Bool.not_true, Bool.false_eq_true, if_false]
  constructor
  · intro hmem
    cases hp : o.parseOk <;> simp [hp, List.mem_filter] at hmem
  · intro hmem
    cases hp : o.parseOk <;> simp [hp, List.mem_filter] at hmem

/-- C3 amended witness: a fully successful issuance leaves no temporary
artifact behind. -/
theorem c3_witness :
    ((⟨true, true, true, true, true, true, true⟩ : IssueOracle).writeCnfOk = true) ∧
      ("a.local.csr" ∉
          (createCertificate "a.local" ⟨true, true, true, true, true, true, true⟩ []).2 ∧
        "a.local.cnf" ∉
          (createCertificate "a.local" ⟨true, true, true, true, true, true, true⟩ []).2) :=
  ⟨rfl, c3_cleanup_on_success "a.local" ⟨true, true, true, true, true, true, true⟩ []
    rfl rfl rfl rfl rfl rfl⟩

/-- C6.  The claim requires `add(domain, ip)` to re-enable a managed but
disabled pair for every ip; the source forwards to
`toggleHostState(domain, false)` without the ip, so the default
`127.0.0.1` is searched and a disabled `::1` entry is neither found nor
re-enabled: the call returns `false` and leaves the file byte-identical,
while the parsed view confirms the pair is managed and disabled. -/
theorem c6_failing_input_eval :
    readHosts ["# ::1 api.local", DISABLED_IDENTIFIER] =
        [⟨"::1", "api.local", true, true, 1⟩] ∧
      addHost "api.local" "::1" ["# ::1 api.local", DISABLED_IDENTIFIER] true =
        .ok (false, ["# ::1 api.local", DISABLED_IDENTIFIER]) := by
  decide

/-- C1 counterexample.  The claim says the second `start` installs the
second certificate into one shared SNI table on a single shared listener
bound once to the port (no second bind).  In the source each `start`
creates its own dedicated HTTPS server and asks it to bind the configured
port: after the two calls two server handles exist, both for port 443,
each holding only its own certificate — so the state has two listeners
for the port, not at most one. -/
theorem c1_counterexample :
    afterStart2.1 = true ∧
      afterStart2.2.servers.length = 2 ∧
      afterStart2.2.servers.map (fun kv => kv.2.port) = [some 443, some 443] ∧
      afterStart2.2.servers.map (fun kv => kv.2.certPem) =
        ["PEM:d1.crt", "PEM:d2.crt"] ∧
      ¬ afterStart2.2.servers.length ≤ 1 := by
  decide

/-- C1 amended.  `start(d1, ...)` then `start(d2, ...)` on the same
configured port creates two independent per-domain HTTPS servers, each
attempting its own bind of that port with its own certificate; there is
no shared SNI certificate table.  Both calls report success and the two
server handles coexist, one per domain. -/
theorem c1_per_domain_servers (s : ProxyState) (d1 d2 c1 k1 c2 k2 : String)
    (env : ProxyEnv) (cfg1 cfg2 : ProxyConfig) (kp1 cp1 kp2 cp2 : String)
    (hne : d2 ≠ d1)
    (hp1 : mapFind s.proxies d1 = some cfg1)
    (hp2 : mapFind s.proxies d2 = some cfg2)
    (hs1 : mapFind s.servers d1 = none)
    (hs2 : mapFind s.servers d2 = none)
    (hu1 : env.urlParseOk cfg1.target = true)
    (hu2 : env.urlParseOk cfg2.target = true)
    (hk1 : env.fsRead k1 = some kp1) (hc1 : env.fsRead c1 = some cp1)
    (hk2 : env.fsRead k2 = some kp2) (hc2 : env.fsRead c2 = some cp2) :
    (startProxy s d1 c1 k1 env).1 = true ∧
      (startProxy (startProxy s d1 c1 k1 env).2 d2 c2 k2 env).1 = true ∧
      mapFind (startProxy (startProxy s d1 c1 k1 env).2 d2 c2 k2 env).2.servers d1 =
        some ⟨cfg1.port, cp1, kp1⟩ ∧
      mapFind (startProxy (startProxy s d1 c1 k1 env).2 d2 c2 k2 env).2.servers d2 =
        some ⟨cfg2.port, cp2, kp2⟩ := by
  have hstep1 : startProxy s d1 c1 k1 env =
      (true, ⟨mapSet s.proxies d1
          { cfg1 with certPath := some c1, keyPath := some k1, isRunning := true },
        mapSet s.servers d1 ⟨cfg1.port, cp1, kp1⟩⟩) := by
    simp [startProxy, stopProxy, hp1, hs1, hu1, hk1, hc1]
  have hp2' : mapFind (mapSet s.proxies d1
      { cfg1 with certPath := some c1, keyPath := some k1, isRunning := true }) d2 =
      some cfg2 := by
    rw [mapFind_set_ne _ _ _ _ hne]; exact hp2
  have hs2' : mapFind (mapSet s.servers d1 ⟨cfg1.port, cp1, kp1⟩) d2 = none := by
    rw [mapFind_set_ne _ _ _ _ hne]; exact hs2
  have hstep2 : startProxy (startProxy s d1 c1 k1 env).2 d2 c2 k2 env =
      (true, ⟨mapSet (mapSet s.proxies d1
            { cfg1 with certPath := some c1, keyPath := some k1, isRunning := true })
            d2 { cfg2 with certPath := some c2, keyPath := some k2, isRunning := true },
        mapSet (mapSet s.servers d1 ⟨cfg1.port, cp1, kp1⟩) d2
          ⟨cfg2.port, cp2, kp2⟩⟩) := by
    rw [hstep1]
    simp [startProxy, stopProxy, hp2', hs2', hu2, hk2, hc2]
  refine ⟨by rw [hstep1], by rw [hstep2], ?_, ?_⟩
  · rw [hstep2]
    have : mapFind (mapSet (mapSet s.servers d1 ⟨cfg1.port, cp1, kp1⟩) d2
        ⟨cfg2.port, cp2, kp2⟩) d1 =
        mapFind (mapSet s.servers d1 ⟨cfg1.port, cp1, kp1⟩) d1 :=
      mapFind_set_ne _ _ _ _ (fun h => hne h.symm)
    rw [this, mapFind_set_self]
  · rw [hstep2, mapFind_set_self]

/-- C1 amended witness: the demo scenario instantiates the amended
theorem, with both routes on port 443. -/
theorem c1_witness :
    ("d2.local" ≠ "d1.local" ∧ cfgD1.port = some 443 ∧ cfgD2.port = some 443) ∧
      ((startProxy demoState0 "d1.local" "d1.crt" "d1.key" demoEnv).1 = true ∧
        (startProxy (startProxy demoState0 "d1.local" "d1.crt" "d1.key" demoEnv).2
            "d2.local" "d2.crt" "d2.key" demoEnv).1 = true ∧
        mapFind (startProxy (startProxy demoState0 "d1.local" "d1.crt" "d1.key"
              demoEnv).2 "d2.local" "d2.crt" "d2.key" demoEnv).2.servers "d1.local" =
          some ⟨cfgD1.port, "PEM:d1.crt", "PEM:d1.key"⟩ ∧
        mapFind (startProxy (startProxy demoState0 "d1.local" "d1.crt" "d1.key"
              demoEnv).2 "d2.local" "d2.crt" "d2.key" demoEnv).2.servers "d2.local" =
          some ⟨cfgD2.port, "PEM:d2.crt", "PEM:d2.key"⟩) :=
  ⟨⟨by decide, rfl, rfl⟩,
    c1_per_domain_servers demoState0 "d1.local" "d2.local" "d1.crt" "d1.key"
      "d2.crt" "d2.key" demoEnv cfgD1 cfgD2 "PEM:d1.key" "PEM:d1.crt"
      "PEM:d2.key" "PEM:d2.crt" (by decide) rfl rfl rfl rfl rfl rfl rfl rfl
      rfl rfl⟩

/-- C2 counterexample.  The claim says a start on a port already in use
reports the bind failure (not success) and leaves `isRunning` false.  In
the source `listen` returns immediately and a bind error such as
`EADDRINUSE` reaches only the logging `error` listener, so with d1
already listening on port 443 the call `startProxy("d2.local", ...)` on
the same port still returns `true` and marks the route running. -/
theorem c2_counterexample :
    (mapFind afterStart1.servers "d1.local").map (fun h => h.port) =
        some (some 443) ∧
      (startProxy afterStart1 "d2.local" "d2.crt" "d2.key" demoEnv).1 = true ∧
      (mapFind (startProxy afterStart1 "d2.local" "d2.crt" "d2.key"
          demoEnv).2.proxies "d2.local").map (fun c => c.isRunning) = some true := by
  decide

/-- C2 amended.  A bind failure is never reported to the `start` caller:
whenever the route exists, its target parses and both PEM files are
readable, `startProxy` returns `true` and marks the route running — the
availability of the configured port plays no part in the synchronous
result, and the asynchronous listen error is only logged. -/
theorem c2_start_reports_success (s : ProxyState) (domain certPath keyPath : String)
    (env : ProxyEnv) (cfg : ProxyConfig) (kp cp : String)
    (hp : mapFind s.proxies domain = some cfg)
    (hu : env.urlParseOk cfg.target = true)
    (hk : env.fsRead keyPath = some kp) (hc : env.fsRead certPath = some cp) :
    (startProxy s domain certPath keyPath env).1 = true ∧
      (mapFind (startProxy s domain certPath keyPath env).2.proxies domain).map
          (fun c => c.isRunning) = some true := by
  cases hsrv : mapFind s.servers domain with
  | none =>
    have hstep : startProxy s domain certPath keyPath env =
        (true, ⟨mapSet s.proxies domain
            { cfg with
                certPath := some certPath, keyPath := some keyPath,
                isRunning := true },
          mapSet s.servers domain ⟨cfg.port, cp, kp⟩⟩) := by
      simp [startProxy, stopProxy, hp, hsrv, hu, hk, hc]
    rw [hstep]
    simp [mapFind_set_self]
  | some srv =>
    have hp' : mapFind (mapSet s.proxies domain { cfg with isRunning := false })
        domain = some { cfg with isRunning := false } := mapFind_set_self _ _ _
    have hstep : startProxy s domain certPath keyPath env =
        (true, ⟨mapSet (mapSet s.proxies domain { cfg with isRunning := false })
            domain
            { cfg with
                certPath := some certPath, keyPath := some keyPath,
                isRunning := true },
          mapSet (mapDelete s.servers domain) domain ⟨cfg.port, cp, kp⟩⟩) := by
      simp [startProxy, stopProxy, hp, hsrv, hp', hu, hk, hc]
    rw [hstep]
    simp [mapFind_set_self]

/-- C2 amended witness: with d1 already holding a listener on port 443,
starting d2 on the same port reports success and marks d2 running. -/
theorem c2_witness :
    (mapFind afterStart1.proxies "d2.local" = some cfgD2 ∧
      mapFind afterStart1.servers "d1.local" = some ⟨some 443, "PEM:d1.crt", "PEM:d1.key"⟩) ∧
      ((startProxy afterStart1 "d2.local" "d2.crt" "d2.key" demoEnv).1 = true ∧
        (mapFind (startProxy afterStart1 "d2.local" "d2.crt" "d2.key"
            demoEnv).2.proxies "d2.local").map (fun c => c.isRunning) = some true) :=
  ⟨⟨by decide, by decide⟩,
    c2_start_reports_success afterStart1 "d2.local" "d2.crt" "d2.key" demoEnv
      cfgD2 "PEM:d2.key" "PEM:d2.crt" (by decide) rfl rfl rfl⟩

/-! ### Claim C9: classification of commented lines in parsing -/

/-- Every entry produced by parsing from index `i` on sits strictly below
index `i`: `lineNumber` is one-based, so entries carry `i + 1` or more. -/
theorem parse_lineNumber_lb (lines : List String) (i : Nat) :
    ∀ e ∈ parseHostsFile lines i, i < e.lineNumber := by
  have main : ∀ (n : Nat) (lines : List String), lines.length ≤ n →
      ∀ (i : Nat), ∀ e ∈ parseHostsFile lines i, i < e.lineNumber := by
    intro n
    induction n with
    | zero =>
      intro lines hl i e he
      have : lines = [] := List.eq_nil_of_length_eq_zero (Nat.le_zero.mp hl)
      subst this
      simp [parseHostsFile] at he
    | succ n ih =>
      intro lines hl i e he
      match lines with
      | [] => simp [parseHostsFile] at he
      | l :: rest =>
        have hrest : rest.length ≤ n := by
          simpa [Nat.succ_le_succ_iff] using hl
        rw [parseHostsFile.eq_def] at he
        simp only [] at he
        by_cases hcom : strStartsWith (jsTrim l) "#" = true
        · by_cases hnd : nextTrimEq rest DISABLED_IDENTIFIER = true
          · have hguard :
                (strStartsWith (jsTrim l) "#" &&
                  ! nextTrimEq rest DISABLED_IDENTIFIER) = false := by
              simp [hcom, hnd]
            rw [hguard] at he
            simp only [Bool.false_eq_true, if_false, hcom, if_true] at he
            by_cases hL : jsTrim (substringFrom1 (jsTrim l)) = ""
            · rw [if_pos hL] at he
              exact Nat.lt_of_succ_lt (ih rest hrest (i + 1) e he)
            · rw [if_neg hL] at he
              cases hsp : splitWs (jsTrim (substringFrom1 (jsTrim l))) with
              | nil =>
                rw [hsp] at he
                exact Nat.lt_of_succ_lt (ih rest hrest (i + 1) e he)
              | cons p0 tl =>
                cases tl with
                | nil =>
                  rw [hsp] at he
                  exact Nat.lt_of_succ_lt (ih rest hrest (i + 1) e he)
                | cons p1 tl2 =>
                  rw [hsp] at he
                  simp only [] at he
                  rcases List.mem_cons.mp he with rfl | he
                  · exact Nat.lt_succ_self i
                  · by_cases hb : (nextTrimEq rest APP_IDENTIFIER ||
                        nextTrimEq rest DISABLED_IDENTIFIER) = true
                    · rw [if_pos hb] at he
                      cases rest with
                      | nil => simp at he
                      | cons hd r2 =>
                        simp only [] at he
                        have hr2 : r2.length ≤ n := by
                          have h2 : r2.length + 1 ≤ n := by simpa using hrest
                          omega
                        have := ih r2 hr2 (i + 2) e he
                        omega
                    · rw [if_neg hb] at he
                      exact Nat.lt_of_succ_lt (ih rest hrest (i + 1) e he)
          · have hguard :
                (strStartsWith (jsTrim l) "#" &&
                  ! nextTrimEq rest DISABLED_IDENTIFIER) = true := by
              simp [hcom, hnd]
            rw [hguard] at he
            simp only [if_true] at he
            exact Nat.lt_of_succ_lt (ih rest hrest (i + 1) e he)
        · have hcom' : strStartsWith (jsTrim l) "#" = false := by
            simpa using hcom
          have hguard :
              (strStartsWith (jsTrim l) "#" &&
                ! nextTrimEq rest DISABLED_IDENTIFIER) = false := by
            simp [hcom']
          rw [hguard] at he
          simp only [Bool.false_eq_true, if_false, hcom', if_true] at he
          by_cases hL : jsTrim l = ""
          · rw [if_pos hL] at he
            exact Nat.lt_of_succ_lt (ih rest hrest (i + 1) e he)
          · rw [if_neg hL] at he
            cases hsp : splitWs (jsTrim l) with
            | nil =>
              rw [hsp] at he
              exact Nat.lt_of_succ_lt (ih rest hrest (i + 1) e he)
            | cons p0 tl =>
              cases tl with
              | nil =>
                rw [hsp] at he
                exact Nat.lt_of_succ_lt (ih rest hrest (i + 1) e he)
              | cons p1 tl2 =>
                rw [hsp] at he
                simp only [] at he
                rcases List.mem_cons.mp he with rfl | he
                · exact Nat.lt_succ_self i
                · by_cases hb : (nextTrimEq rest APP_IDENTIFIER ||
                      nextTrimEq rest DISABLED_IDENTIFIER) = true
                  · rw [if_pos hb] at he
                    cases rest with
                    | nil => simp at he
                    | cons hd r2 =>
                      simp only [] at he
                      have hr2 : r2.length ≤ n := by
                        have h2 : r2.length + 1 ≤ n := by simpa using hrest
                        omega
                      have := ih r2 hr2 (i + 2) e he
                      omega
                  · rw [if_neg hb] at he
                    exact Nat.lt_of_succ_lt (ih rest hrest (i + 1) e he)
  exact main lines.length lines (Nat.le_refl _) i

/-- C9.  A commented data line is recognized as a disabled managed entry
exactly when the line directly below it is the disabled sentinel:
(1) with any other following line the commented line contributes nothing
to the parse; (2) with the disabled sentinel below, its un-commented
fields become a managed, disabled entry and the sentinel line is skipped;
(3) in particular a commented data line directly above the active
sentinel is omitted from the results entirely — every parsed entry comes
from a strictly later line. -/
theorem c9_commented_line_classification (c next : String) (rest : List String)
    (i : Nat) :
    (strStartsWith (jsTrim c) "#" = true →
      jsTrim next ≠ DISABLED_IDENTIFIER →
        parseHostsFile (c :: next :: rest) i = parseHostsFile (next :: rest) (i + 1)) ∧
    (strStartsWith (jsTrim c) "#" = true →
      jsTrim next = DISABLED_IDENTIFIER →
      ∀ ip d ps, splitWs (jsTrim (substringFrom1 (jsTrim c))) = ip :: d :: ps →
        parseHostsFile (c :: next :: rest) i =
          ⟨ip, d, true, true, i + 1⟩ :: parseHostsFile rest (i + 2)) ∧
    (strStartsWith (jsTrim c) "#" = true →
      jsTrim next = APP_IDENTIFIER →
      ∀ e ∈ parseHostsFile (c :: next :: rest) i, i + 2 < e.lineNumber) := by
  refine ⟨?_, ?_, ?_⟩
  · intro hc hnd
    have hfalse : nextTrimEq (next :: rest) DISABLED_IDENTIFIER = false := by
      simp [nextTrimEq, hnd]
    simp [parseHostsFile, hc, hfalse]
  · intro hc hnd ip d ps hsp
    have hne : ¬ jsTrim (substringFrom1 (jsTrim c)) = "" := by
      intro h0
      rw [h0] at hsp
      simp [splitWs, splitWsAux] at hsp
    have htrue : nextTrimEq (next :: rest) DISABLED_IDENTIFIER = true := by
      simp [nextTrimEq, hnd]
    conv =>
      lhs
      rw [parseHostsFile]
    simp [hc, htrue, hne, hsp, nextTrimEq, hnd]
  · intro hc hna e he
    have hnd : jsTrim next ≠ DISABLED_IDENTIFIER := by
      rw [hna]; decide
    have hfalse : nextTrimEq (next :: rest) DISABLED_IDENTIFIER = false := by
      simp [nextTrimEq, hnd]
    rw [show parseHostsFile (c :: next :: rest) i =
        parseHostsFile (next :: rest) (i + 1) by simp [parseHostsFile, hc, hfalse]] at he
    have hstep : ∀ e2 ∈ parseHostsFile (next :: rest) (i + 1), i + 2 < e2.lineNumber := by
      intro e2 he2
      have hA : strStartsWith APP_IDENTIFIER "#" = true := by decide
      by_cases hrd : nextTrimEq rest DISABLED_IDENTIFIER = true
      · have hB : jsTrim (substringFrom1 APP_IDENTIFIER) =
            "@axlotl-lab/navigrator" := by decide
        have hC : splitWs "@axlotl-lab/navigrator" = ["@axlotl-lab/navigrator"] := by
          decide
        have hD : ¬ ("@axlotl-lab/navigrator" = "") := by decide
        rw [show parseHostsFile (next :: rest) (i + 1) =
            parseHostsFile rest (i + 1 + 1) by
          rw [parseHostsFile.eq_def]
          simp [hna, hA, hB, hC, hD, hrd]] at he2
        exact parse_lineNumber_lb rest (i + 2) e2 he2
      · have hrd' : nextTrimEq rest DISABLED_IDENTIFIER = false := by
          simpa using hrd
        rw [show parseHostsFile (next :: rest) (i + 1) =
            parseHostsFile rest (i + 1 + 1) by
          rw [parseHostsFile.eq_def]
          simp [hna, hA, hrd']] at he2
        exact parse_lineNumber_lb rest (i + 2) e2 he2
    exact hstep e he

/-- C9 witness: a commented pair above the active sentinel vanishes from
the parse, while the same pair above the disabled sentinel is a managed
disabled entry. -/
theorem c9_witness :
    (strStartsWith (jsTrim "# 127.0.0.1 ghost.local") "#" = true ∧
      jsTrim APP_IDENTIFIER ≠ DISABLED_IDENTIFIER ∧
      jsTrim DISABLED_IDENTIFIER = DISABLED_IDENTIFIER ∧
      splitWs (jsTrim (substringFrom1 (jsTrim "# 127.0.0.1 ghost.local"))) =
        ["127.0.0.1", "ghost.local"]) ∧
    parseHostsFile ["# 127.0.0.1 ghost.local", APP_IDENTIFIER, "127.0.0.1 b.local"] 0 =
        parseHostsFile [APP_IDENTIFIER, "127.0.0.1 b.local"] 1 ∧
    parseHostsFile ["# 127.0.0.1 ghost.local", DISABLED_IDENTIFIER] 0 =
        ⟨"127.0.0.1", "ghost.local", true, true, 1⟩ :: parseHostsFile [] 2 :=
  ⟨⟨by decide, by decide, by decide, by decide⟩,
    (c9_commented_line_classification "# 127.0.0.1 ghost.local" APP_IDENTIFIER
        ["127.0.0.1 b.local"] 0).1 (by decide) (by decide),
    (c9_commented_line_classification "# 127.0.0.1 ghost.local" DISABLED_IDENTIFIER
        [] 0).2.1 (by decide) (by decide) "127.0.0.1" "ghost.local" [] (by decide)⟩

/-! ### Claim C4: importAllLocalHosts -/

/-- A splice inserts one sentinel line and keeps every existing line. -/
theorem markScan_spliced_mem (domain ip : String) (lines : List String) :
    ∀ ls, markScan domain ip lines = .spliced ls → ∀ x ∈ lines, x ∈ ls := by
  induction lines with
  | nil => intro ls h; simp [markScan] at h
  | cons l rest ih =>
    intro ls h
    rw [markScan.eq_def] at h
    simp only [] at h
    by_cases hskip : (jsTrim l = "" || strStartsWith (jsTrim l) "#") = true
    · rw [if_pos hskip] at h
      cases hm : markScan domain ip rest with
      | alreadyMarked => rw [hm] at h; simp [consMark] at h
      | notFound => rw [hm] at h; simp [consMark] at h
      | spliced ls2 =>
        rw [hm] at h
        simp only [consMark, MarkOutcome.spliced.injEq] at h
        subst h
        intro x hx
        rcases List.mem_cons.mp hx with rfl | hx
        · exact List.mem_cons_self _ _
        · exact List.mem_cons_of_mem _ (ih ls2 hm x hx)
    · rw [if_neg hskip] at h
      cases hsp : splitWs (jsTrim l) with
      | nil =>
        rw [hsp] at h
        simp only [] at h
        cases hm : markScan domain ip rest with
        | alreadyMarked => rw [hm] at h; simp [consMark] at h
        | notFound => rw [hm] at h; simp [consMark] at h
        | spliced ls2 =>
          rw [hm] at h
          simp only [consMark, MarkOutcome.spliced.injEq] at h
          subst h
          intro x hx
          rcases List.mem_cons.mp hx with rfl | hx
          · exact List.mem_cons_self _ _
          · exact List.mem_cons_of_mem _ (ih ls2 hm x hx)
      | cons p0 tl =>
        cases tl with
        | nil =>
          rw [hsp] at h
          simp only [] at h
          cases hm : markScan domain ip rest with
          | alreadyMarked => rw [hm] at h; simp [consMark] at h
          | notFound => rw [hm] at h; simp [consMark] at h
          | spliced ls2 =>
            rw [hm] at h
            simp only [consMark, MarkOutcome.spliced.injEq] at h
            subst h
            intro x hx
            rcases List.mem_cons.mp hx with rfl | hx
            · exact List.mem_cons_self _ _
            · exact List.mem_cons_of_mem _ (ih ls2 hm x hx)
        | cons p1 tl2 =>
          rw [hsp] at h
          simp only [] at h
          by_cases hpair : (p0 = ip && p1 = domain) = true
          · rw [if_pos hpair] at h
            by_cases hnext : (nextTrimEq rest APP_IDENTIFIER ||
                nextTrimEq rest DISABLED_IDENTIFIER) = true
            · rw [if_pos hnext] at h; simp at h
            · rw [if_neg hnext] at h
              simp only [MarkOutcome.spliced.injEq] at h
              subst h
              intro x hx
              rcases List.mem_cons.mp hx with rfl | hx
              · exact List.mem_cons_self _ _
              · exact List.mem_cons_of_mem _ (List.mem_cons_of_mem _ hx)
          · rw [if_neg hpair] at h
            cases hm : markScan domain ip rest with
            | alreadyMarked => rw [hm] at h; simp [consMark] at h
            | notFound => rw [hm] at h; simp [consMark] at h
            | spliced ls2 =>
              rw [hm] at h
              simp only [consMark, MarkOutcome.spliced.injEq] at h
              subst h
              intro x hx
              rcases List.mem_cons.mp hx with rfl | hx
              · exact List.mem_cons_self _ _
              · exact List.mem_cons_of_mem _ (ih ls2 hm x hx)

/-- When some line of the file is a matching uncommented data line, the
scan never reports `notFound`. -/
theorem markScan_found (domain ip : String) (lines : List String)
    (h : ∃ x ∈ lines, isDataMatch domain ip x = true) :
    markScan domain ip lines ≠ .notFound := by
  induction lines with
  | nil => simp at h
  | cons l rest ih =>
    rw [markScan.eq_def]
    simp only []
    obtain ⟨x, hx, hdm⟩ := h
    by_cases hskip : (jsTrim l = "" || strStartsWith (jsTrim l) "#") = true
    · rw [if_pos hskip]
      have hxr : x ∈ rest := by
        rcases List.mem_cons.mp hx with rfl | hx2
        · exfalso; simp only [isDataMatch] at hdm; rw [if_pos hskip] at hdm
          exact Bool.false_ne_true hdm
        · exact hx2
      have := ih ⟨x, hxr, hdm⟩
      cases hm : markScan domain ip rest with
      | alreadyMarked => simp [consMark]
      | spliced ls2 => simp [consMark]
      | notFound => exact absurd hm this
    · rw [if_neg hskip]
      cases hsp : splitWs (jsTrim l) with
      | nil =>
        simp only []
        have hxr : x ∈ rest := by
          rcases List.mem_cons.mp hx with rfl | hx2
          · exfalso; simp only [isDataMatch] at hdm
            rw [if_neg hskip, hsp] at hdm
            exact Bool.false_ne_true hdm
          · exact hx2
        have := ih ⟨x, hxr, hdm⟩
        cases hm : markScan domain ip rest with
        | alreadyMarked => simp [consMark]
        | spliced ls2 => simp [consMark]
        | notFound => exact absurd hm this
      | cons p0 tl =>
        cases tl with
        | nil =>
          simp only []
          have hxr : x ∈ rest := by
            rcases List.mem_cons.mp hx with rfl | hx2
            · exfalso; simp only [isDataMatch] at hdm
              rw [if_neg hskip, hsp] at hdm
              exact Bool.false_ne_true hdm
            · exact hx2
          have := ih ⟨x, hxr, hdm⟩
          cases hm : markScan domain ip rest with
          | alreadyMarked => simp [consMark]
          | spliced ls2 => simp [consMark]
          | notFound => exact absurd hm this
        | cons p1 tl2 =>
          simp only []
          by_cases hpair : (p0 = ip && p1 = domain) = true
          · rw [if_pos hpair]
            by_cases hnext : (nextTrimEq rest APP_IDENTIFIER ||
                nextTrimEq rest DISABLED_IDENTIFIER) = true
            · rw [if_pos hnext]; simp
            · rw [if_neg hnext]; simp
          · rw [if_neg hpair]
            have hxr : x ∈ rest := by
              rcases List.mem_cons.mp hx with rfl | hx2
              · exfalso; simp only [isDataMatch] at hdm
                rw [if_neg hskip, hsp] at hdm
                exact absurd hdm (by simpa using hpair)
              · exact hx2
            have := ih ⟨x, hxr, hdm⟩
            cases hm : markScan domain ip rest with
            | alreadyMarked => simp [consMark]
            | spliced ls2 => simp [consMark]
            | notFound => exact absurd hm this

/-- A found pair is adopted successfully (given a succeeding write), and
every line of the input survives into the output. -/
theorem mark_ok_of_found (domain ip : String) (lines : List String)
    (h : ∃ x ∈ lines, isDataMatch domain ip x = true) :
    ∃ ls, markHostAsOurs domain ip lines true = .ok (true, ls) ∧
      ∀ x ∈ lines, x ∈ ls := by
  cases hm : markScan domain ip lines with
  | notFound => exact absurd hm (markScan_found domain ip lines h)
  | alreadyMarked =>
    exact ⟨lines, by simp [markHostAsOurs, hm], fun x hx => hx⟩
  | spliced ls =>
    exact ⟨ls, by simp [markHostAsOurs, hm],
      markScan_spliced_mem domain ip lines ls hm⟩

/-- The import loop with no failing write adopts every entry of its work
list: no early exit occurs and the count equals the list length. -/
theorem importLoop_all_found : ∀ (entries : List HostEntry) (ls : List String),
    (∀ e ∈ entries, ∃ x ∈ ls, isDataMatch e.domain e.ip x = true) →
    ∃ fin, importLoop entries ls [] = .ok (entries.length, fin) := by
  intro entries
  induction entries with
  | nil => intro ls _; exact ⟨ls, rfl⟩
  | cons e es ih =>
    intro ls h
    obtain ⟨ls1, hok, hmem⟩ :=
      mark_ok_of_found e.domain e.ip ls (h e (List.mem_cons_self _ _))
    have h2 : ∀ e2 ∈ es, ∃ x ∈ ls1, isDataMatch e2.domain e2.ip x = true := by
      intro e2 he2
      obtain ⟨x, hx, hdm⟩ := h e2 (List.mem_cons_of_mem _ he2)
      exact ⟨x, hmem x hx, hdm⟩
    obtain ⟨fin, hloop⟩ := ih ls1 h2
    refine ⟨fin, ?_⟩
    simp [importLoop, hok, hloop]

/-- Every entry the parser reports as not created by us stems from an
uncommented data line of the file whose first two fields are the ip and domain of the entry. -/
theorem parse_unmanaged_dataMatch (lines : List String) (i : Nat) (e : HostEntry)
    (he : e ∈ parseHostsFile lines i) (hicb : e.isCreatedByUs = false) :
    ∃ x ∈ lines, isDataMatch e.domain e.ip x = true := by
  have main : ∀ (n : Nat) (lines : List String), lines.length ≤ n →
      ∀ (i : Nat), ∀ e ∈ parseHostsFile lines i, e.isCreatedByUs = false →
        ∃ x ∈ lines, isDataMatch e.domain e.ip x = true := by
    intro n
    induction n with
    | zero =>
      intro lines hl i e he _
      have : lines = [] := List.eq_nil_of_length_eq_zero (Nat.le_zero.mp hl)
      subst this
      simp [parseHostsFile] at he
    | succ n ih =>
      intro lines hl i e he hicb
      match lines with
      | [] => simp [parseHostsFile] at he
      | l :: rest =>
        have hrest : rest.length ≤ n := by
          simpa [Nat.succ_le_succ_iff] using hl
        have lift : (∃ x ∈ rest, isDataMatch e.domain e.ip x = true) →
            ∃ x ∈ l :: rest, isDataMatch e.domain e.ip x = true := by
          intro ⟨x, hx, hdm⟩
          exact ⟨x, List.mem_cons_of_mem _ hx, hdm⟩
        rw [parseHostsFile.eq_def] at he
        simp only [] at he
        by_cases hcom : strStartsWith (jsTrim l) "#" = true
        · by_cases hnd : nextTrimEq rest DISABLED_IDENTIFIER = true
          · have hguard :
                (strStartsWith (jsTrim l) "#" &&
                  ! nextTrimEq rest DISABLED_IDENTIFIER) = false := by
              simp [hcom, hnd]
            rw [hguard] at he
            simp only [Bool.false_eq_true, if_false, hcom, if_true] at he
            by_cases hL : jsTrim (substringFrom1 (jsTrim l)) = ""
            · rw [if_pos hL] at he
              exact lift (ih rest hrest (i + 1) e he hicb)
            · rw [if_neg hL] at he
              cases hsp : splitWs (jsTrim (substringFrom1 (jsTrim l))) with
              | nil =>
                rw [hsp] at he
                exact lift (ih rest hrest (i + 1) e he hicb)
              | cons p0 tl =>
                cases tl with
                | nil =>
                  rw [hsp] at he
                  exact lift (ih rest hrest (i + 1) e he hicb)
                | cons p1 tl2 =>
                  rw [hsp] at he
                  simp only [] at he
                  rcases List.mem_cons.mp he with rfl | he
                  · exfalso
                    simp [hnd] at hicb
                  · by_cases hb : (nextTrimEq rest APP_IDENTIFIER ||
                        nextTrimEq rest DISABLED_IDENTIFIER) = true
                    · rw [if_pos hb] at he
                      cases rest with
                      | nil => simp at he
                      | cons hd r2 =>
                        simp only [] at he
                        have hr2 : r2.length ≤ n := by
                          have h2 : r2.length + 1 ≤ n := by simpa using hrest
                          omega
                        obtain ⟨x, hx, hdm⟩ := ih r2 hr2 (i + 2) e he hicb
                        exact ⟨x, List.mem_cons_of_mem _ (List.mem_cons_of_mem _ hx),
                          hdm⟩
                    · rw [if_neg hb] at he
                      exact lift (ih rest hrest (i + 1) e he hicb)
          · have hguard :
                (strStartsWith (jsTrim l) "#" &&
                  ! nextTrimEq rest DISABLED_IDENTIFIER) = true := by
              simp [hcom, hnd]
            rw [hguard] at he
            simp only [if_true] at he
            exact lift (ih rest hrest (i + 1) e he hicb)
        · have hcom' : strStartsWith (jsTrim l) "#" = false := by
            simpa using hcom
          have hguard :
              (strStartsWith (jsTrim l) "#" &&
                ! nextTrimEq rest DISABLED_IDENTIFIER) = false := by
            simp [hcom']
          rw [hguard] at he
          simp only [Bool.false_eq_true, if_false, hcom', if_true] at he
          by_cases hL : jsTrim l = ""
          · rw [if_pos hL] at he
            exact lift (ih rest hrest (i + 1) e he hicb)
          · rw [if_neg hL] at he
            cases hsp : splitWs (jsTrim l) with
            | nil =>
              rw [hsp] at he
              exact lift (ih rest hrest (i + 1) e he hicb)
            | cons p0 tl =>
              cases tl with
              | nil =>
                rw [hsp] at he
                exact lift (ih rest hrest (i + 1) e he hicb)
              | cons p1 tl2 =>
                rw [hsp] at he
                simp only [] at he
                rcases List.mem_cons.mp he with rfl | he
                · refine ⟨l, List.mem_cons_self _ _, ?_⟩
                  have hskip : (jsTrim l = "" || strStartsWith (jsTrim l) "#") =
                      false := by simp [hL, hcom']
                  simp only [isDataMatch, hskip, Bool.false_eq_true, if_false, hsp]
                  simp
                · by_cases hb : (nextTrimEq rest APP_IDENTIFIER ||
                      nextTrimEq rest DISABLED_IDENTIFIER) = true
                  · rw [if_pos hb] at he
                    cases rest with
                    | nil => simp at he
                    | cons hd r2 =>
                      simp only [] at he
                      have hr2 : r2.length ≤ n := by
                        have h2 : r2.length + 1 ≤ n := by simpa using hrest
                        omega
                      obtain ⟨x, hx, hdm⟩ := ih r2 hr2 (i + 2) e he hicb
                      exact ⟨x, List.mem_cons_of_mem _ (List.mem_cons_of_mem _ hx),
                        hdm⟩
                  · rw [if_neg hb] at he
                    exact lift (ih rest hrest (i + 1) e he hicb)
  exact main lines.length lines (Nat.le_refl _) i e he hicb

/-- C4 counterexample.  The claim says one failing adoption does not
abort the remaining adoptions and a count is still returned; but when the
write performed by the first adoption throws, the whole import rethrows:
no count is returned and the second unmanaged entry is never processed,
even though the file holds two unmanaged loopback entries. -/
theorem c4_counterexample :
    importAllLocalHosts ["127.0.0.1 a.local", "127.0.0.1 b.local"] [false] =
        .error () ∧
      ((readLocalHosts ["127.0.0.1 a.local", "127.0.0.1 b.local"]).filter
        (fun h => ! h.isCreatedByUs)).length = 2 := by
  decide

/-- C4 amended.  When no write fails, `importAllLocalHosts` adopts every
unmanaged loopback entry of the hosts file — the loop visits all of them,
an adoption reporting `false` would not stop it — and returns the count
of adopted entries together with the success flag `count > 0`; an
adoption that throws (a failing write), however, aborts the whole import
with an error. -/
theorem c4_import_adopts_all (lines : List String) :
    ∃ fin, importAllLocalHosts lines [] =
      .ok (decide (0 < ((readLocalHosts lines).filter
            (fun h => ! h.isCreatedByUs)).length),
        ((readLocalHosts lines).filter (fun h => ! h.isCreatedByUs)).length,
        fin) := by
  have hall : ∀ e ∈ (readLocalHosts lines).filter (fun h => ! h.isCreatedByUs),
      ∃ x ∈ lines, isDataMatch e.domain e.ip x = true := by
    intro e he
    have h1 := List.mem_filter.mp he
    have h2 := List.mem_filter.mp h1.1
    have h3 : e.isCreatedByUs = false := by simpa using h1.2
    exact parse_unmanaged_dataMatch lines 0 e h2.1 h3
  obtain ⟨fin, hloop⟩ := importLoop_all_found _ lines hall
  refine ⟨fin, ?_⟩
  simp [importAllLocalHosts, hloop]

/-! ### Claim C7: toggleHostState round-trip -/

/-- A prefix of a list that drops no leading element under `p` also drops
none. -/
theorem prefix_dropWhile_eq_self (p : Char → Bool) (X Y : List Char)
    (hpre : X <+: Y) (hY : Y.dropWhile p = Y) : X.dropWhile p = X := by
  cases X with
  | nil => rfl
  | cons c cs =>
    obtain ⟨t, ht⟩ := hpre
    have hc : p c = false := by
      by_contra hc'
      have hc2 : p c = true := by simpa using hc'
      rw [← ht, List.cons_append, List.dropWhile_cons_of_pos hc2] at hY
      have hlen := congrArg List.length hY
      have hle := (List.dropWhile_suffix p (l := cs ++ t)).length_le
      simp only [List.length_cons] at hlen
      omega
    exact List.dropWhile_cons_of_neg (by simp [hc])

theorem trimChars_idem (l : List Char) : trimChars (trimChars l) = trimChars l := by
  have h1 : List.dropWhile Char.isWhitespace
      (List.rdropWhile Char.isWhitespace (List.dropWhile Char.isWhitespace l)) =
      List.rdropWhile Char.isWhitespace (List.dropWhile Char.isWhitespace l) :=
    prefix_dropWhile_eq_self Char.isWhitespace _ _
      (List.rdropWhile_prefix Char.isWhitespace (List.dropWhile Char.isWhitespace l))
      (List.dropWhile_idempotent Char.isWhitespace l)
  show List.rdropWhile Char.isWhitespace
      (List.dropWhile Char.isWhitespace
        (List.rdropWhile Char.isWhitespace (List.dropWhile Char.isWhitespace l))) =
    List.rdropWhile Char.isWhitespace (List.dropWhile Char.isWhitespace l)
  rw [h1, List.rdropWhile_idempotent]

theorem trimChars_ws_cons (c : Char) (l : List Char) (h : c.isWhitespace = true) :
    trimChars (c :: l) = trimChars l := by
  unfold trimChars
  rw [List.dropWhile_cons_of_pos h]

theorem trimChars_hash (m : List Char) (h : trimChars m ≠ []) :
    trimChars ('#' :: ' ' :: trimChars m) = '#' :: ' ' :: trimChars m := by
  have hp : ('#' : Char).isWhitespace = false := by decide
  have hlast : ¬ Char.isWhitespace ((trimChars m).getLast h) =  true :=
    List.rdropWhile_last_not Char.isWhitespace
      (List.dropWhile Char.isWhitespace m) h
  have hdecomp : '#' :: ' ' :: trimChars m =
      ('#' :: ' ' :: (trimChars m).dropLast) ++ [(trimChars m).getLast h] := by
    conv_lhs => rw [← List.dropLast_append_getLast h]
    simp
  have hdw : List.dropWhile Char.isWhitespace ('#' :: ' ' :: trimChars m) =
      '#' :: ' ' :: trimChars m :=
    List.dropWhile_cons_of_neg (by simp [hp])
  show List.rdropWhile Char.isWhitespace
      (List.dropWhile Char.isWhitespace ('#' :: ' ' :: trimChars m)) =
    '#' :: ' ' :: trimChars m
  rw [hdw]
  conv_lhs => rw [hdecomp]
  rw [List.rdropWhile_concat_neg Char.isWhitespace _ _ hlast]
  rw [← hdecomp]

theorem jsTrim_idem (s : String) : jsTrim (jsTrim s) = jsTrim s :=
  congrArg String.mk (trimChars_idem s.data)

theorem jsTrim_data (s : String) : (jsTrim s).data = trimChars s.data := rfl

theorem data_of_hash_append (t : String) :
    ("# " ++ t).data = '#' :: ' ' :: t.data := by
  simp [String.data_append]

theorem trimmed_ne_nil_of_ne_empty (s : String) (h : jsTrim s ≠ "") :
    trimChars s.data ≠ [] := by
  intro hc
  exact h (by
    show String.mk (trimChars s.data) = ""
    rw [hc])

theorem jsTrim_hash_append (s : String) (h : jsTrim s ≠ "") :
    jsTrim ("# " ++ jsTrim s) = "# " ++ jsTrim s := by
  have hd : ("# " ++ jsTrim s).data = '#' :: ' ' :: trimChars s.data := by
    rw [data_of_hash_append, jsTrim_data]
  have h' := trimmed_ne_nil_of_ne_empty s h
  apply String.ext
  show trimChars ("# " ++ jsTrim s).data = ("# " ++ jsTrim s).data
  rw [hd, trimChars_hash s.data h']

theorem jsTrim_sub1_hash (s : String) :
    jsTrim (substringFrom1 ("# " ++ jsTrim s)) = jsTrim s := by
  have hd : ("# " ++ jsTrim s).data = '#' :: ' ' :: trimChars s.data := by
    rw [data_of_hash_append, jsTrim_data]
  apply String.ext
  show trimChars (("# " ++ jsTrim s).data.drop 1) = trimChars s.data
  rw [hd]
  show trimChars (' ' :: trimChars s.data) = trimChars s.data
  rw [trimChars_ws_cons _ _ (by decide), trimChars_idem]

theorem strStartsWith_hash_append (t : String) :
    strStartsWith ("# " ++ t) "#" = true := by
  show ("#".data).isPrefixOf ("# " ++ t).data = true
  rw [data_of_hash_append]
  show ['#'].isPrefixOf ('#' :: ' ' :: t.data) = true
  simp [List.isPrefixOf]

theorem splitWs_empty : splitWs "" = [] := rfl

/-- A commented copy of a line that splits into at least two fields is
never the active sentinel (whose payload is a single field). -/
theorem hash_trim_ne_app (s ip domain : String) (ps : List String)
    (hsp : splitWs (jsTrim s) = ip :: domain :: ps) :
    ¬ ("# " ++ jsTrim s = APP_IDENTIFIER) := by
  intro h0
  have hdata := congrArg String.data h0
  rw [data_of_hash_append] at hdata
  have hinner : (jsTrim s).data = "@axlotl-lab/navigrator".data := by
    have happ : APP_IDENTIFIER.data =
        '#' :: ' ' :: "@axlotl-lab/navigrator".data := by decide
    rw [happ] at hdata
    exact (List.cons.injEq _ _ _ _).mp ((List.cons.injEq _ _ _ _).mp hdata).2 |>.2
  have heq : jsTrim s = "@axlotl-lab/navigrator" := String.ext hinner
  rw [heq] at hsp
  have hone : splitWs "@axlotl-lab/navigrator" = ["@axlotl-lab/navigrator"] := by
    decide
  rw [hone] at hsp
  simp at hsp

/-- A commented copy of a line that splits into at least two fields is
never the disabled sentinel either. -/
theorem hash_trim_ne_disabled (s ip domain : String) (ps : List String)
    (hsp : splitWs (jsTrim s) = ip :: domain :: ps) :
    ¬ ("# " ++ jsTrim s = DISABLED_IDENTIFIER) := by
  intro h0
  have hdata := congrArg String.data h0
  rw [data_of_hash_append] at hdata
  have hinner : (jsTrim s).data = "@axlotl-lab/navigrator-disabled".data := by
    have happ : DISABLED_IDENTIFIER.data =
        '#' :: ' ' :: "@axlotl-lab/navigrator-disabled".data := by decide
    rw [happ] at hdata
    exact (List.cons.injEq _ _ _ _).mp ((List.cons.injEq _ _ _ _).mp hdata).2 |>.2
  have heq : jsTrim s = "@axlotl-lab/navigrator-disabled" := String.ext hinner
  rw [heq] at hsp
  have hone : splitWs "@axlotl-lab/navigrator-disabled" =
      ["@axlotl-lab/navigrator-disabled"] := by decide
  rw [hone] at hsp
  simp at hsp

/-- A line satisfying `togglePass` is passed over by the scan without
breaking: the scan continues on the remaining lines. -/
theorem toggleScan_cons_pass (domain ip : String) (dis : Bool) (l : String)
    (rest : List String) (h : togglePass domain ip l = true) :
    toggleScan domain dis ip (l :: rest) =
      (toggleScan domain dis ip rest).map (fun ls => l :: ls) := by
  by_cases h1 : jsTrim l = ""
  · rw [toggleScan.eq_def]
    simp only []
    rw [if_pos h1]
  · by_cases h2 : jsTrim l = APP_IDENTIFIER
    · rw [toggleScan.eq_def]
      simp only []
      rw [if_neg h1, if_pos (by simp [h2])]
    · by_cases h3 : jsTrim l = DISABLED_IDENTIFIER
      · rw [toggleScan.eq_def]
        simp only []
        rw [if_neg h1, if_pos (by simp [h3])]
      · have hmp : matchesPair domain ip l = false := by
          simp [togglePass, h1, h2, h3] at h
          exact h
        rw [toggleScan.eq_def]
        simp only []
        rw [if_neg h1, if_neg (by simp [h2, h3])]
        simp only [matchesPair] at hmp
        cases hsp : splitWs (if strStartsWith (jsTrim l) "#" then
            jsTrim (substringFrom1 (jsTrim l)) else jsTrim l) with
        | nil => rfl
        | cons p0 tl =>
          cases tl with
          | nil => rfl
          | cons p1 tl2 =>
            rw [hsp] at hmp
            simp only [] at hmp
            simp only []
            rw [if_neg (by simp only [hmp]; exact Bool.false_ne_true)]

/-- A line is passed over by the scan without acting or breaking either
when it satisfies `togglePass` outright, or when it is a foreign entry:
it may match the pair, but the line directly below it is not one of the
two sentinels, so `hasOurIdentifier` is false and the loop moves on. -/
theorem toggleScan_cons_cont (domain ip : String) (dis : Bool) (l : String)
    (rest : List String)
    (h : togglePass domain ip l = true ∨
      (nextTrimEq rest APP_IDENTIFIER = false ∧
        nextTrimEq rest DISABLED_IDENTIFIER = false)) :
    toggleScan domain dis ip (l :: rest) =
      (toggleScan domain dis ip rest).map (fun ls => l :: ls) := by
  by_cases hp : togglePass domain ip l = true
  · exact toggleScan_cons_pass domain ip dis l rest hp
  · rcases h with h | h
    · exact absurd h hp
    · have h1 : ¬ jsTrim l = "" := by
        intro h0; exact hp (by simp [togglePass, h0])
      have h2 : ¬ jsTrim l = APP_IDENTIFIER := by
        intro h0; exact hp (by simp [togglePass, h0])
      have h3 : ¬ jsTrim l = DISABLED_IDENTIFIER := by
        intro h0; exact hp (by simp [togglePass, h0])
      have hm : matchesPair domain ip l = true := by
        by_contra hmc
        have hmf : matchesPair domain ip l = false := by simpa using hmc
        exact hp (by simp [togglePass, hmf])
      rw [toggleScan.eq_def]
      simp only []
      rw [if_neg h1, if_neg (by simp [h2, h3])]
      simp only [matchesPair] at hm
      cases hsp : splitWs (if strStartsWith (jsTrim l) "#" then
          jsTrim (substringFrom1 (jsTrim l)) else jsTrim l) with
      | nil => simp [hsp] at hm
      | cons p0 tl =>
        cases tl with
        | nil => simp [hsp] at hm
        | cons p1 tl2 =>
          rw [hsp] at hm
          simp only [] at hm
          simp only []
          rw [if_pos hm]
          cases rest with
          | nil => rfl
          | cons next r2 =>
            simp only [nextTrimEq] at h
            simp only []
            rw [if_neg (by
              simp only [Bool.or_eq_true]
              rintro (hx | hx)
              · rw [h.1] at hx; cases hx
              · rw [h.2] at hx; cases hx)]

/-- A run of passed-over lines (sentinels, comments, non-matching lines,
and foreign matching entries without a sentinel line below) commutes
with the scan as a prefix. -/
theorem toggleScan_append_pass (domain ip : String) (dis : Bool)
    (pre rest0 : List String)
    (hpre : passUntil domain ip pre rest0 = true) :
    toggleScan domain dis ip (pre ++ rest0) =
      (toggleScan domain dis ip rest0).map (fun ls => pre ++ ls) := by
  induction pre with
  | nil =>
    simp
  | cons l pre2 ih =>
    simp only [passUntil, Bool.and_eq_true] at hpre
    obtain ⟨hhead, htail⟩ := hpre
    have hcond : togglePass domain ip l = true ∨
        (nextTrimEq (pre2 ++ rest0) APP_IDENTIFIER = false ∧
          nextTrimEq (pre2 ++ rest0) DISABLED_IDENTIFIER = false) := by
      by_cases hx : togglePass domain ip l = true
      · exact Or.inl hx
      · right
        have hx2 : togglePass domain ip l = false := by simpa using hx
        rw [hx2] at hhead
        simp only [Bool.false_or, Bool.and_eq_true, Bool.not_eq_true'] at hhead
        exact hhead
    rw [List.cons_append, toggleScan_cons_cont domain ip dis l (pre2 ++ rest0) hcond,
      ih htail]
    cases toggleScan domain dis ip rest0 <;> simp

/-- A file in which every line is passed over — including lines matching
the pair whose next line is not a sentinel, that is, foreign entries —
yields no modification: the pair is nowhere a managed entry and the
operation reports `false`. -/
theorem toggleScan_none_all_pass (domain ip : String) (dis : Bool)
    (lines : List String)
    (h : passUntil domain ip lines [] = true) :
    toggleScan domain dis ip lines = none := by
  have := toggleScan_append_pass domain ip dis lines [] h
  rw [List.append_nil] at this
  rw [this]
  rfl

/-- The head condition of `passUntil` reads the continuation only
through the sentinel test on its first line, so two continuations whose
first lines are both non-sentinels support the same prefixes. -/
theorem passUntil_seam_congr (domain ip : String) (pre rest0 rest1 : List String)
    (h0 : nextTrimEq rest0 APP_IDENTIFIER = false)
    (h0d : nextTrimEq rest0 DISABLED_IDENTIFIER = false)
    (h1 : nextTrimEq rest1 APP_IDENTIFIER = false)
    (h1d : nextTrimEq rest1 DISABLED_IDENTIFIER = false) :
    passUntil domain ip pre rest0 = passUntil domain ip pre rest1 := by
  induction pre with
  | nil => rfl
  | cons l pre2 ih =>
    simp only [passUntil]
    rw [ih]
    cases pre2 with
    | nil => simp [h0, h0d, h1, h1d]
    | cons m pre3 => rfl

/-- Disabling at an enabled managed block: the data line is commented and
the sentinel swapped. -/
theorem toggleScan_accept_disable (domain ip : String) (l : String)
    (post ps : List String)
    (hnc : strStartsWith (jsTrim l) "#" = false)
    (hsp : splitWs (jsTrim l) = ip :: domain :: ps) :
    toggleScan domain true ip (l :: APP_IDENTIFIER :: post) =
      some (("# " ++ jsTrim l) :: DISABLED_IDENTIFIER :: post) := by
  have hne : ¬ jsTrim l = "" := by
    intro h0; rw [h0, splitWs_empty] at hsp; cases hsp
  have hAPP : ¬ jsTrim l = APP_IDENTIFIER := by
    intro h0; rw [h0] at hnc; exact absurd hnc (by decide)
  have hDIS : ¬ jsTrim l = DISABLED_IDENTIFIER := by
    intro h0; rw [h0] at hnc; exact absurd hnc (by decide)
  have hAPPtrim : jsTrim APP_IDENTIFIER = APP_IDENTIFIER := by decide
  rw [toggleScan.eq_def]
  simp only []
  rw [if_neg hne, if_neg (by simp [hAPP, hDIS]), hnc]
  simp only [Bool.false_eq_true, if_false, hsp]
  rw [if_pos (by simp), if_pos (by simp [hAPPtrim])]
  rw [if_neg (by simp [hnc])]
  simp

/-- Enabling at a disabled managed block written by the disable step
above: the comment marker is stripped back off and the sentinel swapped,
recovering the trimmed data line exactly. -/
theorem toggleScan_accept_enable (domain ip : String) (s : String)
    (post ps : List String)
    (hnc : strStartsWith (jsTrim s) "#" = false)
    (hsp : splitWs (jsTrim s) = ip :: domain :: ps) :
    toggleScan domain false ip
        (("# " ++ jsTrim s) :: DISABLED_IDENTIFIER :: post) =
      some (jsTrim s :: APP_IDENTIFIER :: post) := by
  have hne : jsTrim s ≠ "" := by
    intro h0; rw [h0, splitWs_empty] at hsp; cases hsp
  have htrim : jsTrim ("# " ++ jsTrim s) = "# " ++ jsTrim s :=
    jsTrim_hash_append s hne
  have hneL : ¬ jsTrim ("# " ++ jsTrim s) = "" := by
    rw [htrim]
    intro h0
    have := congrArg String.data h0
    rw [data_of_hash_append] at this
    cases this
  have hAPPL : ¬ jsTrim ("# " ++ jsTrim s) = APP_IDENTIFIER := by
    rw [htrim]
    intro h0
    have hdata := congrArg String.data h0
    rw [data_of_hash_append] at hdata
    have : (jsTrim s).data = "@axlotl-lab/navigrator".data := by
      have happ : APP_IDENTIFIER.data = '#' :: ' ' :: "@axlotl-lab/navigrator".data := by
        decide
      rw [happ] at hdata
      exact (List.cons.injEq _ _ _ _).mp ((List.cons.injEq _ _ _ _).mp hdata).2 |>.2
    have heq : jsTrim s = "@axlotl-lab/navigrator" := String.ext this
    rw [heq] at hsp
    have : splitWs "@axlotl-lab/navigrator" = ["@axlotl-lab/navigrator"] := by decide
    rw [this] at hsp
    simp at hsp
  have hDISL : ¬ jsTrim ("# " ++ jsTrim s) = DISABLED_IDENTIFIER := by
    rw [htrim]
    intro h0
    have hdata := congrArg String.data h0
    rw [data_of_hash_append] at hdata
    have : (jsTrim s).data = "@axlotl-lab/navigrator-disabled".data := by
      have happ : DISABLED_IDENTIFIER.data =
          '#' :: ' ' :: "@axlotl-lab/navigrator-disabled".data := by
        decide
      rw [happ] at hdata
      exact (List.cons.injEq _ _ _ _).mp ((List.cons.injEq _ _ _ _).mp hdata).2 |>.2
    have heq : jsTrim s = "@axlotl-lab/navigrator-disabled" := String.ext this
    rw [heq] at hsp
    have : splitWs "@axlotl-lab/navigrator-disabled" =
        ["@axlotl-lab/navigrator-disabled"] := by decide
    rw [this] at hsp
    simp at hsp
  have hcomm : strStartsWith (jsTrim ("# " ++ jsTrim s)) "#" = true := by
    rw [htrim]
    exact strStartsWith_hash_append (jsTrim s)
  have hactual : jsTrim (substringFrom1 (jsTrim ("# " ++ jsTrim s))) = jsTrim s := by
    rw [htrim]
    exact jsTrim_sub1_hash s
  have hDIStrim : jsTrim DISABLED_IDENTIFIER = DISABLED_IDENTIFIER := by decide
  rw [toggleScan.eq_def]
  simp only []
  rw [if_neg hneL, if_neg (by simp [hAPPL, hDISL]), hcomm]
  simp only [if_true, hactual, hsp]
  rw [if_pos (by simp), if_pos (by simp [hDIStrim])]
  rw [if_neg (by simp [hcomm])]
  simp [hcomm]

/-- C7.  Toggling a managed enabled block off and back on round-trips it:
the data line keeps its ip/domain pair byte-for-byte (the re-enabled line
still splits into exactly the original fields), only the comment prefix
and the sentinel variant change between the two states, and toggling a
pair that is nowhere a managed entry — the file may well contain the pair
as a foreign entry, a matching data line with no sentinel below it —
returns `false` with the file untouched.  The lines before the managed
block, constrained by `passUntil`, may likewise include foreign
duplicates of the pair. -/
theorem c7_toggle_roundtrip (pre post other : List String)
    (dataLine domain ip : String) (ps : List String) (e : Bool)
    (hpre : passUntil domain ip pre (dataLine :: APP_IDENTIFIER :: post) = true)
    (hnc : strStartsWith (jsTrim dataLine) "#" = false)
    (hsp : splitWs (jsTrim dataLine) = ip :: domain :: ps)
    (hother : passUntil domain ip other [] = true) :
    toggleHostState domain true ip (pre ++ dataLine :: APP_IDENTIFIER :: post) true =
        .ok (true, pre ++ ("# " ++ jsTrim dataLine) :: DISABLED_IDENTIFIER :: post) ∧
    toggleHostState domain false ip
        (pre ++ ("# " ++ jsTrim dataLine) :: DISABLED_IDENTIFIER :: post) true =
        .ok (true, pre ++ jsTrim dataLine :: APP_IDENTIFIER :: post) ∧
    splitWs (jsTrim (jsTrim dataLine)) = ip :: domain :: ps ∧
    toggleHostState domain e ip other true = .ok (false, other) := by
  have hne : jsTrim dataLine ≠ "" := by
    intro h0; rw [h0, splitWs_empty] at hsp; cases hsp
  have hdAPP : ¬ jsTrim dataLine = APP_IDENTIFIER := by
    intro h0; rw [h0] at hnc; exact absurd hnc (by decide)
  have hdDIS : ¬ jsTrim dataLine = DISABLED_IDENTIFIER := by
    intro h0; rw [h0] at hnc; exact absurd hnc (by decide)
  have htrimH : jsTrim ("# " ++ jsTrim dataLine) = "# " ++ jsTrim dataLine :=
    jsTrim_hash_append dataLine hne
  have hc0 : nextTrimEq (dataLine :: APP_IDENTIFIER :: post) APP_IDENTIFIER =
      false := by
    simp [nextTrimEq, hdAPP]
  have hc0d : nextTrimEq (dataLine :: APP_IDENTIFIER :: post) DISABLED_IDENTIFIER =
      false := by
    simp [nextTrimEq, hdDIS]
  have hc1 : nextTrimEq (("# " ++ jsTrim dataLine) :: DISABLED_IDENTIFIER :: post)
      APP_IDENTIFIER = false := by
    simp [nextTrimEq, htrimH, hash_trim_ne_app dataLine ip domain ps hsp]
  have hc1d : nextTrimEq (("# " ++ jsTrim dataLine) :: DISABLED_IDENTIFIER :: post)
      DISABLED_IDENTIFIER = false := by
    simp [nextTrimEq, htrimH, hash_trim_ne_disabled dataLine ip domain ps hsp]
  have hpre2 : passUntil domain ip pre
      (("# " ++ jsTrim dataLine) :: DISABLED_IDENTIFIER :: post) = true := by
    rw [passUntil_seam_congr domain ip pre
      (("# " ++ jsTrim dataLine) :: DISABLED_IDENTIFIER :: post)
      (dataLine :: APP_IDENTIFIER :: post) hc1 hc1d hc0 hc0d]
    exact hpre
  refine ⟨?_, ?_, ?_, ?_⟩
  · have hscan := toggleScan_append_pass domain ip true pre
      (dataLine :: APP_IDENTIFIER :: post) hpre
    rw [toggleScan_accept_disable domain ip dataLine post ps hnc hsp] at hscan
    simp only [Option.map_some'] at hscan
    simp [toggleHostState, hscan]
  · have hscan := toggleScan_append_pass domain ip false pre
      (("# " ++ jsTrim dataLine) :: DISABLED_IDENTIFIER :: post) hpre2
    rw [toggleScan_accept_enable domain ip dataLine post ps hnc hsp] at hscan
    simp only [Option.map_some'] at hscan
    simp [toggleHostState, hscan]
  · rw [jsTrim_idem]
    exact hsp
  · have hscan := toggleScan_none_all_pass domain ip e other hother
    simp [toggleHostState, hscan]

/-- C7 witness: a managed block preceded by a foreign duplicate of the
same pair round-trips between the two encodings, and a file holding the
pair only as a foreign entry (data line, no sentinel) reports `false`
with the file untouched. -/
theorem c7_witness :
    (passUntil "api.local" "127.0.0.1" ["127.0.0.1 api.local"]
        ("127.0.0.1 api.local" :: APP_IDENTIFIER :: ["::1 x"]) = true ∧
      strStartsWith (jsTrim "127.0.0.1 api.local") "#" = false ∧
      splitWs (jsTrim "127.0.0.1 api.local") = ["127.0.0.1", "api.local"] ∧
      passUntil "api.local" "127.0.0.1" ["127.0.0.1 api.local", "::1 x"] [] = true) ∧
    (toggleHostState "api.local" true "127.0.0.1"
        (["127.0.0.1 api.local"] ++
          "127.0.0.1 api.local" :: APP_IDENTIFIER :: ["::1 x"]) true =
        .ok (true, ["127.0.0.1 api.local"] ++
          ("# " ++ jsTrim "127.0.0.1 api.local") :: DISABLED_IDENTIFIER :: ["::1 x"]) ∧
      toggleHostState "api.local" false "127.0.0.1"
        (["127.0.0.1 api.local"] ++
          ("# " ++ jsTrim "127.0.0.1 api.local") :: DISABLED_IDENTIFIER :: ["::1 x"]) true =
        .ok (true, ["127.0.0.1 api.local"] ++
          jsTrim "127.0.0.1 api.local" :: APP_IDENTIFIER :: ["::1 x"]) ∧
      splitWs (jsTrim (jsTrim "127.0.0.1 api.local")) = ["127.0.0.1", "api.local"] ∧
      toggleHostState "api.local" true "127.0.0.1"
        ["127.0.0.1 api.local", "::1 x"] true =
        .ok (false, ["127.0.0.1 api.local", "::1 x"])) :=
  ⟨⟨by decide, by decide, by decide, by decide⟩,
    c7_toggle_roundtrip ["127.0.0.1 api.local"] ["::1 x"]
      ["127.0.0.1 api.local", "::1 x"]
      "127.0.0.1 api.local" "api.local" "127.0.0.1" [] true
      (by decide) (by decide) (by decide) (by decide)⟩

end Navigrator
